import Mathlib

/-!
Verification development for the node-search repository (src/index.js and
src/index.bak.js): a small persistent full-text search engine.  JavaScript
objects are modelled as association lists in insertion order (matching the
enumeration order of string-keyed objects), JS numbers as real numbers, and
the undefined/NaN values arising in the persistent implementation's inverse
document frequency as `Option ℝ` with `none` standing for NaN/undefined.
The key-value store (`level`) is modelled as a value-preserving map: a `get`
returns exactly the value that was `put` under the key; the source always
puts serialized strings for documents, while the `DocumentCount` key only
ever receives `undefined`: `_setNumDocuments(field, num)` puts its second
parameter and its only caller passes a single argument.
-/

/-- Lookup in a JS object modelled as an association list (first binding of
the key, which is the only one since `objSet` replaces in place). -/
def objGet {κ α : Type} [DecidableEq κ] : List (κ × α) → κ → Option α
  | [], _ => none
  | (k, v) :: rest, key => if k = key then some v else objGet rest key

/-- JS property assignment `obj[key] = v`: replaces the value in place if the
key is present (keeping enumeration order), otherwise appends the new key at
the end, matching JS object insertion-order enumeration. -/
def objSet {κ α : Type} [DecidableEq κ] : List (κ × α) → κ → α → List (κ × α)
  | [], key, v => [(key, v)]
  | (k, w) :: rest, key, v =>
    if k = key then (k, v) :: rest else (k, w) :: objSet rest key v

/-- JS `delete obj[key]` / level `del`: removes the binding for the key. -/
def objDel {κ α : Type} [DecidableEq κ] : List (κ × α) → κ → List (κ × α)
  | [], _ => []
  | (k, w) :: rest, key => if k = key then rest else (k, w) :: objDel rest key

theorem objGet_objSet_self {κ α : Type} [DecidableEq κ] (l : List (κ × α)) (k : κ) (v : α) :
    objGet (objSet l k v) k = some v := by
  induction l with
  | nil => simp [objGet, objSet]
  | cons hd tl ih =>
    obtain ⟨k', v'⟩ := hd
    by_cases h : k' = k
    · simp [objSet, objGet, h]
    · simp [objSet, objGet, h, ih]

theorem objGet_objSet_ne {κ α : Type} [DecidableEq κ] (l : List (κ × α)) (k k' : κ) (v : α)
    (h : k ≠ k') : objGet (objSet l k v) k' = objGet l k' := by
  induction l with
  | nil => simp [objGet, objSet, h]
  | cons hd tl ih =>
    obtain ⟨k₀, v₀⟩ := hd
    by_cases h0 : k₀ = k
    · subst h0; simp [objSet, objGet, h]
    · simp only [objSet, if_neg h0, objGet]
      by_cases h1 : k₀ = k'
      · simp [h1]
      · simp [h1, ih]

theorem objSet_objSet_self {κ α : Type} [DecidableEq κ] (l : List (κ × α)) (k : κ) (v w : α) :
    objSet (objSet l k v) k w = objSet l k w := by
  induction l with
  | nil => simp [objSet]
  | cons hd tl ih =>
    obtain ⟨k', v'⟩ := hd
    by_cases h : k' = k
    · simp [objSet, h]
    · simp [objSet, h, ih]

/-- Keys of the object after `objSet`: unchanged when the key was present,
the key appended when absent. -/
theorem map_fst_objSet {κ α : Type} [DecidableEq κ] (l : List (κ × α)) (k : κ) (v : α) :
    (objSet l k v).map Prod.fst =
      if (objGet l k).isSome then l.map Prod.fst else l.map Prod.fst ++ [k] := by
  induction l with
  | nil => simp [objSet, objGet]
  | cons hd tl ih =>
    obtain ⟨k', v'⟩ := hd
    by_cases h : k' = k
    · simp [objSet, objGet, h]
    · simp only [objSet, if_neg h, objGet, List.map_cons, ih]
      by_cases h1 : (objGet tl k).isSome <;> simp [h, h1]

theorem map_fst_objDel_subset {κ α : Type} [DecidableEq κ] (l : List (κ × α)) (k : κ) :
    ((objDel l k).map Prod.fst) ⊆ l.map Prod.fst := by
  induction l with
  | nil => simp [objDel]
  | cons hd tl ih =>
    obtain ⟨k', v'⟩ := hd
    by_cases h : k' = k
    · simp only [objDel, if_pos h, List.map_cons]
      exact List.subset_cons_of_subset _ (List.Subset.refl _)
    · simp only [objDel, if_neg h, List.map_cons]
      exact List.cons_subset_cons _ ih

/-- JSON values appearing in the documents used by the claims: strings and
integers (JSON.stringify renders them as quoted strings and bare numerals). -/
inductive JVal : Type
  | str : String → JVal
  | num : Int → JVal
deriving DecidableEq, Repr

/-- Serialization of one JSON value, as `JSON.stringify` renders it (string
escaping is not needed for the field values the claims exercise). -/
def jvalStringify : JVal → String
  | .str s => "\"" ++ s ++ "\""
  | .num n => toString n

/-- Serialization of a flat JS object, as `JSON.stringify` renders it:
`\x7b"k":v,...\x7d` in enumeration order. -/
def jsonStringify (doc : List (String × JVal)) : String :=
  "\x7b" ++ String.intercalate ","
    (doc.map (fun p => "\"" ++ p.1 ++ "\":" ++ jvalStringify p.2)) ++ "\x7d"

/-- Document id computed by `_generateDocumentId` (src/index.js lines 259-261):
the hash of the serialized document.  The hash function (md5) is an external
collaborator and is a parameter. -/
def generateDocumentId (hash : String → String) (doc : List (String × JVal)) : String :=
  hash (jsonStringify doc)

/-- Object.assign spreading of a string source: JS copies the string's own
enumerable properties, which are its character indices `"0"`, `"1"`, ... each
bound to a one-character string.  This is what `Object.assign({}, prev, ...)`
does in `update` (src/index.js lines 203-212), because `get` returns the raw
serialized string from the store, never a parsed object. -/
def charSpread (s : String) : List (String × JVal) :=
  s.data.enum.map (fun p => (toString p.1, JVal.str (String.singleton p.2)))

/-- Object.assign of later sources over a base object: each binding of the
source overwrites or appends in turn. -/
def assignOver (base : List (String × JVal)) (src : List (String × JVal)) :
    List (String × JVal) :=
  src.foldl (fun acc p => objSet acc p.1 p.2) base

/-- Merged fields computed by `update` (src/index.js line 206):
`Object.assign({}, previousDocumentVersion, partialUpdatedDocument)` where
`previousDocumentVersion` is `null` when the document is absent (skipped by
Object.assign) and otherwise the raw serialized string fetched by `get`,
whose characters are spread index-by-index. -/
def jsUpdateMergedFields (prev : Option String) ( part : List (String × JVal)) :
    List (String × JVal) :=
  match prev with
  | none => assignOver [] part
  | some s => assignOver (assignOver [] (charSpread s)) part

/-- Field-by-field merge as the specification words it: a field mentioned in
the partial mapping takes its new value, every other field of the stored
document keeps its previous value.  Modelled from the spec for comparison
with `jsUpdateMergedFields`. -/
def specUpdateMergedFields (prev : List (String × JVal)) ( part : List (String × JVal)) :
    List (String × JVal) :=
  assignOver prev part

/-- State of the persistent engine's document namespace: the `DocumentStore:*`
keys (document id, serialized document) in insertion order, and the value
under the `DocumentCount` key.  `some n` would model a stored number n;
`none` models the key being absent (read back as `null`) or holding
`undefined`.  The source never stores a number under this key:
`_setNumDocuments(field, num)` (src/index.js lines 439-446) puts its second
parameter `num`, and its only call site (line 452) passes a single argument,
which is bound to `field`, leaving `num` undefined.  The `InvertedIndex:*`
namespace is disjoint from these keys and is modelled separately. -/
structure JsState : Type where
  docs : List (String × String)
  count : Option Nat
deriving DecidableEq, Repr

/-- The empty store. -/
def jsEmpty : JsState := { docs := [], count := none }

/-- `_getNumDocuments` (src/index.js lines 427-437): returns the value stored
under `DocumentCount`, or `null` (after catching notFound) when the key is
absent; an absent key and a stored `undefined` both read as `none`. -/
def jsGetNumDocuments (st : JsState) : Option Nat := st.count

/-- `_setNumDocuments` (src/index.js lines 439-446): declared as
`_setNumDocuments(field, num)` and puts `num` under `DocumentCount`.  Its
only caller passes one argument, which is bound to `field`, so the value
actually put is the undefined `num`. -/
def jsSetNumDocuments (st : JsState) (_fieldArg : Nat) (num : Option Nat) : JsState :=
  { st with count := num }

/-- `_incrementNumDocuments` (src/index.js lines 448-457): reads the count
(falsy values become 0) and calls `_setNumDocuments(documentCount + num)` —
a single argument, bound to the unused `field` parameter — so the put writes
the undefined `num` parameter and `DocumentCount` is never set to the
incremented number. -/
def jsIncrementNumDocuments (st : JsState) : JsState :=
  jsSetNumDocuments st ((jsGetNumDocuments st).getD 0 + 1) none

/-- Effect of `add` (src/index.js lines 191-201) on the document namespace:
put the serialized document under its content-hash id, then run
`_incrementNumDocuments`, which (because of the `_setNumDocuments` arity
slip) writes `undefined` under `DocumentCount`.  `_indexDocument` touches
only `InvertedIndex:*` keys. -/
def jsAddState (hash : String → String) (st : JsState) (doc : List (String × JVal)) :
    JsState :=
  jsIncrementNumDocuments
    { st with docs := objSet st.docs (generateDocumentId hash doc) (jsonStringify doc) }

/-- The document keys written by `add`: the increment path never touches the
`DocumentStore:*` namespace. -/
theorem jsAddState_docs (hash : String → String) (st : JsState)
    (doc : List (String × JVal)) :
    (jsAddState hash st doc).docs =
      objSet st.docs (generateDocumentId hash doc) (jsonStringify doc) := rfl

/-- Effect of `update` (src/index.js lines 203-212): fetch the raw stored
string via `get` (null when absent), Object.assign the partial fields over
it, and put the serialized merge back under the same id.  The count is not
touched. -/
def jsUpdateState (st : JsState) (id : String) ( part : List (String × JVal)) :
    JsState :=
  { st with docs :=
      objSet st.docs id (jsonStringify (jsUpdateMergedFields (objGet st.docs id) part)) }

/-- Effect of `delete` (src/index.js lines 214-221): remove the document key;
the count is not decremented. -/
def jsDeleteState (st : JsState) (id : String) : JsState :=
  { st with docs := objDel st.docs id }

/-- A public mutating operation of the persistent engine. -/
inductive JsOp : Type
  | add : List (String × JVal) → JsOp
  | update : String → List (String × JVal) → JsOp
  | del : String → JsOp
deriving DecidableEq, Repr

/-- One step of the persistent engine. -/
def jsStep (hash : String → String) (st : JsState) : JsOp → JsState
  | .add doc => jsAddState hash st doc
  | .update id part => jsUpdateState st id part
  | .del id => jsDeleteState st id

/-- Run a sequence of operations against the persistent engine. -/
def jsRun (hash : String → String) (st : JsState) (ops : List JsOp) : JsState :=
  ops.foldl (jsStep hash) st

/-- Number of documents present in the document store: the number of distinct
document keys. -/
def jsDocCount (st : JsState) : Nat := (st.docs.map Prod.fst).toFinset.card


/-- Errors of the underlying level store: an absent key (`notFound`, which the
source treats as a normal branch) or any other storage failure. -/
inductive JsError : Type
  | notFound : JsError
  | storage : JsError
deriving DecidableEq, Repr

/-- Store with fault injection, used to trace how storage failures propagate
through the try/catch wrappers of the public operations.  The flags make the
corresponding underlying operations fail with a storage error. -/
structure KVE : Type where
  st : JsState
  failPut : Bool
  failDel : Bool
  failGet : Bool
deriving DecidableEq, Repr

/-- An underlying `store.put` of a document: fails with a storage error when
the fault flag is set, otherwise writes the key. -/
def kvePutDoc (kv : KVE) (id s : String) : Except JsError KVE :=
  if kv.failPut then .error .storage
  else .ok { kv with st := { kv.st with docs := objSet kv.st.docs id s } }

/-- An underlying `store.del`: fails with a storage error when the fault flag
is set. -/
def kveDelDoc (kv : KVE) (id : String) : Except JsError KVE :=
  if kv.failDel then .error .storage
  else .ok { kv with st := { kv.st with docs := objDel kv.st.docs id } }

/-- `_getNumDocuments` (src/index.js lines 427-437): catches its own errors,
returning `null` on absence and `undefined` (after logging) on a storage
failure; an absent key, a stored `undefined` and a failed read all come back
as `none`. -/
def jsGetNumDocumentsC (kv : KVE) : Option Nat :=
  if kv.failGet then none else kv.st.count

/-- `_setNumDocuments` (src/index.js lines 439-446): declared as
`_setNumDocuments(field, num)`, it puts `num` under `DocumentCount` and
catches and logs a put failure, leaving the stored count unchanged.  Its
only caller passes a single argument, bound to `field`, so `num` is
undefined. -/
def jsSetNumDocumentsC (kv : KVE) (_fieldArg : Nat) (num : Option Nat) : KVE :=
  if kv.failPut then kv else { kv with st := { kv.st with count := num } }

/-- `_incrementNumDocuments` (src/index.js lines 448-457): reads the count
(falsy values become 0) and calls `_setNumDocuments(documentCount + num)`
with a single argument, so the undefined `num` parameter is what gets put;
all store errors on this path are caught internally, so this never throws to
its caller. -/
def jsIncrementNumDocumentsC (kv : KVE) : KVE :=
  jsSetNumDocumentsC kv ((jsGetNumDocumentsC kv).getD 0 + 1) none

/-- `get` (src/index.js lines 223-233): catches its own errors, returning
`null` for an absent key and `undefined` (after logging) on a storage
failure; both are modelled as `none`. -/
def jsGetDocC (kv : KVE) (id : String) : Option String :=
  if kv.failGet then none else objGet kv.st.docs id

/-- Body of the `try` block of `add` (src/index.js lines 192-197): put the
serialized document (this may throw a storage error), then increment the
count (never throws).  `_indexDocument` wraps every store access of its own
in try/catch (lines 263-327) and touches only `InvertedIndex:*` keys, so it
neither throws nor changes the document namespace. -/
def jsAddBody (hash : String → String) (kv : KVE) (doc : List (String × JVal)) :
    Except JsError KVE :=
  match kvePutDoc kv (generateDocumentId hash doc) (jsonStringify doc) with
  | .error e => .error e
  | .ok kv1 => .ok (jsIncrementNumDocumentsC kv1)

/-- The `catch (error) \x7b console.error(error) \x7d` wrapper shared by
`add`, `update` and `delete`: a thrown error is logged and the async function
resolves normally, so the caller always observes a successful result. -/
def tryCatchLog (kv0 : KVE) (body : Except JsError KVE) : Except JsError Unit × KVE :=
  match body with
  | .ok kv => (.ok (), kv)
  | .error _ => (.ok (), kv0)

/-- `add` (src/index.js lines 191-201) with its try/catch wrapper; the pair
is (result observed by the caller, resulting store). -/
def jsAddC (hash : String → String) (kv : KVE) (doc : List (String × JVal)) :
    Except JsError Unit × KVE :=
  tryCatchLog kv (jsAddBody hash kv doc)

/-- Body of the `try` block of `update` (src/index.js lines 204-207): `get`
never throws (it catches internally), the merge is pure, and the final put
may throw a storage error. -/
def jsUpdateBody (kv : KVE) (id : String) ( part : List (String × JVal)) :
    Except JsError KVE :=
  kvePutDoc kv id (jsonStringify (jsUpdateMergedFields (jsGetDocC kv id) part))

/-- `update` (src/index.js lines 203-212) with its try/catch wrapper. -/
def jsUpdateC (kv : KVE) (id : String) ( part : List (String × JVal)) :
    Except JsError Unit × KVE :=
  tryCatchLog kv (jsUpdateBody kv id part)

/-- `delete` (src/index.js lines 214-221) with its try/catch wrapper. -/
def jsDeleteC (kv : KVE) (id : String) : Except JsError Unit × KVE :=
  tryCatchLog kv (kveDelDoc kv id)

/-- A JS floating point number that may be NaN or undefined: `none` stands
for NaN/undefined, which propagate through arithmetic. -/
abbrev JsNum := Option ℝ

/-- Term frequency (src/index.bak.js lines 117-120 and src/index.js lines
329-332, identical code): the square root of the number of occurrences of the
exact token in the field's token sequence. -/
noncomputable def termFrequency (term : String) (tokenizedDocument : List String) : ℝ :=
  Real.sqrt ((tokenizedDocument.filter (fun token => token = term)).length)

/-- Field length normalization (src/index.bak.js lines 128-130 and
src/index.js lines 347-349, identical code). -/
noncomputable def fieldLengthNormalization (tokenizedDocument : List String) : ℝ :=
  1 / Real.sqrt tokenizedDocument.length

/-- Inverted index of either implementation: token, then document id, then
the ordered list of postings, with postings of type `α`. -/
abbrev InvIndex (α : Type) : Type := List (String × List (String × List α))

/-- Posting-list insertion, src/index.bak.js lines 39-49 and
`_invertedIndexInsert` of src/index.js lines 285-306 (identical structure;
the persistent version JSON round-trips the record through the store, which
is value-preserving and modelled structurally): append the posting to the
list at (token, documentId), creating the record or the per-document list
when absent. -/
def invertedIndexInsert {α : Type} (inv : InvIndex α) (token documentId : String)
    (posting : α) : InvIndex α :=
  match objGet inv token with
  | some record =>
    match objGet record documentId with
    | some postings => objSet inv token (objSet record documentId (postings ++ [posting]))
    | none => objSet inv token (objSet record documentId [posting])
  | none => objSet inv token [(documentId, [posting])]

/-- `_inverseDocumentFrequency` of the persistent implementation
(src/index.js lines 334-345).  `documentsContainTerm` is the parsed record, a
plain object, and the code reads `documentsContainTerm.length`, a property a
plain object does not have: for a token already in the index the document
frequency is `undefined`, so `1 + Math.log(N / (undefined + 1))` is NaN
(`none`).  For an unseen token the raw record is `null`, `JSON.parse` keeps
it `null`, the ternary yields 0, and the result is `1 + ln(N / 1)`. -/
noncomputable def jsInverseDocumentFrequency {α : Type} (numDocuments : ℝ)
    (inv : InvIndex α) (term : String) : JsNum :=
  match objGet inv term with
  | some _ => none
  | none => some (1 + Real.log (numDocuments / (0 + 1)))

/-- `_indexDocument` of the persistent implementation (src/index.js lines
263-283): for every token of every tokenized field that is not a stopword,
compute the idf, build the posting `[termFrequency, idf,
fieldLengthNormalization]` — three components, no field id — and insert it.
The document count is read from the store on each idf computation; it is not
written during the pass, so it is a constant parameter here. -/
noncomputable def jsIndexDocument (isStop : String → Bool) (numDocuments : ℝ)
    (inv : InvIndex (List JsNum)) (documentId : String)
    (tokenizedDocument : List (String × List String)) : InvIndex (List JsNum) :=
  tokenizedDocument.foldl (fun inv1 field =>
    field.2.foldl (fun inv2 token =>
      if isStop token then inv2
      else
        invertedIndexInsert inv2 token documentId
          [some (termFrequency token field.2),
           jsInverseDocumentFrequency numDocuments inv2 token,
           some (fieldLengthNormalization field.2)]) inv1) inv

/-- Postings of the in-memory implementation (src/index.bak.js lines 33-38):
a JS array of numbers `[termFrequency, inverseDocumentFrequency,
fieldLengthNormalization, fieldId]`. -/
abbrev BakPosting := List ℝ

/-- State of the in-memory implementation (src/index.bak.js lines 7-13):
inverted index, document store, field registry (name to ordinal id), next
field ordinal, and the boost array (a JS array keyed by field id; boost
values are rationals, cast to reals where they enter a score). -/
structure BakState : Type where
  invertedIndex : InvIndex BakPosting
  documentStore : List (String × List (String × String))
  fields : List (String × Nat)
  fieldsCount : Nat
  fieldBoosts : List (Nat × ℚ)

/-- The freshly constructed in-memory engine. -/
def bakEmpty : BakState :=
  { invertedIndex := [], documentStore := [], fields := [], fieldsCount := 0,
    fieldBoosts := [] }

/-- Registration step of `tokenizeFields` (src/index.bak.js lines 100-104):
an unseen field name is assigned the next ordinal id, its boost slot is set
to 1 when empty or falsy (0), and the ordinal counter advances. -/
def registerField (st : BakState) (field : String) : BakState :=
  if (objGet st.fields field).isSome then st
  else
    { st with
      fields := objSet st.fields field st.fieldsCount,
      fieldBoosts :=
        match objGet st.fieldBoosts st.fieldsCount with
        | none => objSet st.fieldBoosts st.fieldsCount 1
        | some b => if b = 0 then objSet st.fieldBoosts st.fieldsCount 1 else st.fieldBoosts,
      fieldsCount := st.fieldsCount + 1 }

/-- `tokenizeFields` (src/index.bak.js lines 97-110): register every field of
the document in order and tokenize each field's string value with the
external tokenizer `tok`.  Documents are modelled with string-valued fields,
the indexable case the claims concern. -/
def tokenizeFields (tok : String → List String) (st : BakState)
    (document : List (String × String)) : BakState × List (String × List String) :=
  document.foldl
    (fun acc fv => (registerField acc.1 fv.1, acc.2 ++ [(fv.1, tok fv.2)]))
    (st, [])

/-- `documentFrequency(token)` of the Inverted Index contract: the number of
document identifiers holding at least one posting for the token, 0 if the
token is unseen.  This is `Object.keys(this.invertedIndex[term]).length` in
src/index.bak.js line 124 (record keys are distinct by construction). -/
def documentFrequency {α : Type} (inv : InvIndex α) (term : String) : Nat :=
  match objGet inv term with
  | some record => record.length
  | none => 0

/-- `inverseDocumentFrequency` of the in-memory implementation
(src/index.bak.js lines 122-126): `1 + ln(N / (df + 1))` where N is the
number of keys of the document store and df the document frequency of the
token in the current inverted index. -/
noncomputable def inverseDocumentFrequency (st : BakState) (term : String) : ℝ :=
  1 + Real.log ((st.documentStore.length : ℝ) /
    ((documentFrequency st.invertedIndex term : ℝ) + 1))

/-- Indexing step for one token occurrence (src/index.bak.js lines 31-50):
skip stopwords; otherwise build the posting `[termFrequency(token, field
tokens), inverseDocumentFrequency(token), fieldLengthNormalization(field
tokens), fields[field]]` from the current state and insert it at
(token, documentId). -/
noncomputable def indexToken (isStop : String → Bool) (documentId : String)
    (field : String × List String) (st : BakState) (token : String) : BakState :=
  if isStop token then st
  else
    let posting : BakPosting :=
      [termFrequency token field.2,
       inverseDocumentFrequency st token,
       fieldLengthNormalization field.2,
       (((objGet st.fields field.1).getD 0 : Nat) : ℝ)]
    { st with invertedIndex := invertedIndexInsert st.invertedIndex token documentId posting }

/-- `indexDocument` (src/index.bak.js lines 27-53) after `tokenizeFields`:
the nested loop over tokenized fields and their tokens. -/
noncomputable def indexDocument (isStop : String → Bool) (st : BakState)
    (documentId : String) (tokenizedDocument : List (String × List String)) : BakState :=
  tokenizedDocument.foldl
    (fun st1 field => field.2.foldl (indexToken isStop documentId field) st1) st

/-- Serialization of an all-string-fields document, as `JSON.stringify`
renders it. -/
def jsonStringifyS (document : List (String × String)) : String :=
  jsonStringify (document.map (fun fv => (fv.1, JVal.str fv.2)))

/-- `addDocument` (src/index.bak.js lines 15-19): the document id is the hash
of the serialized document, the document is stored, and `indexDocument` runs
(which first calls `tokenizeFields`). -/
noncomputable def addDocument (hash : String → String) (tok : String → List String)
    (isStop : String → Bool) (st : BakState) (document : List (String × String)) :
    BakState :=
  let documentId := hash (jsonStringifyS document)
  let st1 := { st with documentStore := objSet st.documentStore documentId document }
  let tokenized := tokenizeFields tok st1 document
  indexDocument isStop tokenized.1 documentId tokenized.2

/-- Boost lookup `this.fieldBoosts[posting[3]]` (src/index.bak.js line 73):
the boost array is keyed by field id, accessed with the numeric fourth
posting component.  A missing slot would be `undefined` in JS; indexing
always registers a field's boost before writing its postings, so the
placeholder 0 for that case is never observable. -/
noncomputable def boostOf (st : BakState) (x : ℝ) : ℝ :=
  ((st.fieldBoosts.find? (fun e => decide ((e.1 : ℝ) = x))).map
    (fun e => (e.2 : ℝ))).getD 0

/-- `termScore` (src/index.bak.js lines 70-76): sum over the document's
postings for one token of `tf * idf * fieldLengthNorm * boostOf(fieldId)`. -/
noncomputable def termScore (st : BakState) (postings : List BakPosting) : ℝ :=
  postings.foldl
    (fun score p =>
      score + p.getD 0 0 * p.getD 1 0 * p.getD 2 0 * boostOf st (p.getD 3 0)) 0

/-- Inner step of `scoreDocuments` (src/index.bak.js lines 57-66): for one
query token, add the term score of every document of the token's record to
the accumulated scores (`for..in` over an absent record iterates nothing). -/
noncomputable def scoreStep (st : BakState) (scores : List (String × ℝ))
    (token : String) : List (String × ℝ) :=
  match objGet st.invertedIndex token with
  | none => scores
  | some record =>
    record.foldl
      (fun sc entry =>
        match objGet sc entry.1 with
        | some v => objSet sc entry.1 (v + termScore st entry.2)
        | none => objSet sc entry.1 (termScore st entry.2))
      scores

/-- `scoreDocuments` (src/index.bak.js lines 55-68): fold the per-token step
over the tokenized query, starting from an empty score map. -/
noncomputable def scoreDocuments (st : BakState) (tokenizedQuery : List String) :
    List (String × ℝ) :=
  tokenizedQuery.foldl (scoreStep st) []

/-- `queryNormalization` (src/index.bak.js lines 132-135).  The reducer has
no initial value, so the first idf seeds the accumulator untransformed, and
`Math.sqrt(idf, 2)` is a square root — `Math.sqrt` ignores its extra
argument.  JS throws on reducing an empty array; `search` never applies this
to candidates with an empty query, and the empty case is modelled as 0. -/
noncomputable def queryNormalization (queryIdfs : List ℝ) : ℝ :=
  match queryIdfs with
  | [] => 0
  | x :: xs => 1 / Real.sqrt (xs.foldl (fun total idf => total + Real.sqrt idf) x)

/-- `queryCoordination` (src/index.bak.js lines 137-147): the number of query
token occurrences whose token has a posting record containing the document,
divided by the total number of query tokens. -/
noncomputable def queryCoordination (st : BakState) (tokenizedQuery : List String)
    (documentId : String) : ℝ :=
  ((tokenizedQuery.filter (fun token =>
      match objGet st.invertedIndex token with
      | some record => (objGet record documentId).isSome
      | none => false)).length : ℝ) / (tokenizedQuery.length : ℝ)

/-- The sort of `search` (src/index.bak.js lines 85-93):
`Object.keys(results).sort` with a comparator returning 1 when the left
score is smaller and -1 when it is larger.  ECMAScript's
`Array.prototype.sort` is stable, so this is a stable descending sort by
score, modelled by `mergeSort` with the predicate "the left score is at
least the right score", which keeps ties in enumeration order.  The score
type is kept generic: the comparator only compares scores. -/
def rankPairs {α : Type} [LinearOrder α] (scores : List (String × α)) :
    List (String × α) :=
  scores.mergeSort (fun a b => decide (b.2 ≤ a.2))

/-- `search` (src/index.bak.js lines 78-95): tokenize the query, compute the
query-time idfs, score the candidate documents, scale each score by
`queryNormalization(queryIdfs) * queryCoordination(query, documentId)`, sort
by final score descending (stable), and map each ranked key through the
document store. -/
noncomputable def search (tok : String → List String) (st : BakState) (query : String) :
    List (Option (List (String × String))) :=
  let tokenizedQuery := tok query
  let queryIdfs := tokenizedQuery.map (inverseDocumentFrequency st)
  let results := scoreDocuments st tokenizedQuery
  let finalResults := results.map (fun e =>
    (e.1, e.2 * (queryNormalization queryIdfs * queryCoordination st tokenizedQuery e.1)))
  (rankPairs finalResults).map (fun e => objGet st.documentStore e.1)

/-- Query normalization as the specification words it (modelled from the
spec, §4.5 step 4 and §9): one over the square root of the sum of the
squared query-time idf weights over all distinct query tokens. -/
noncomputable def specQueryNormalization (st : BakState) (tokenizedQuery : List String) :
    ℝ :=
  1 / Real.sqrt ((tokenizedQuery.dedup.map
    (fun t => inverseDocumentFrequency st t ^ 2)).sum)

/-- Coordination factor as the specification words it (modelled from the
spec, §4.5 step 4): distinct query tokens present in the document over
distinct query tokens in the query. -/
noncomputable def specQueryCoordination (st : BakState) (tokenizedQuery : List String)
    (documentId : String) : ℝ :=
  ((tokenizedQuery.dedup.filter (fun token =>
      match objGet st.invertedIndex token with
      | some record => (objGet record documentId).isSome
      | none => false)).length : ℝ) / (tokenizedQuery.dedup.length : ℝ)

/-- Record of postings held at (token, documentId), if any. -/
def recordAt {α : Type} (inv : InvIndex α) (token documentId : String) :
    Option (List α) :=
  (objGet inv token).bind (fun record => objGet record documentId)

theorem recordAt_invertedIndexInsert_self {α : Type} (inv : InvIndex α)
    (token documentId : String) (posting : α) :
    recordAt (invertedIndexInsert inv token documentId posting) token documentId =
      some ((recordAt inv token documentId).getD [] ++ [posting]) := by
  unfold invertedIndexInsert recordAt
  cases hrec : objGet inv token with
  | none =>
    simp [objGet_objSet_self, objGet]
  | some record =>
    cases hdoc : objGet record documentId with
    | none => simp [objGet_objSet_self, hrec, hdoc]
    | some postings => simp [objGet_objSet_self, hrec, hdoc]

theorem objGet_invertedIndexInsert_ne {α : Type} (inv : InvIndex α)
    (token documentId : String) (posting : α) (t : String) (h : token ≠ t) :
    objGet (invertedIndexInsert inv token documentId posting) t = objGet inv t := by
  unfold invertedIndexInsert
  cases hrec : objGet inv token with
  | none => simp [objGet_objSet_ne _ _ _ _ h]
  | some record =>
    cases hdoc : objGet record documentId with
    | none => simp [hdoc, objGet_objSet_ne _ _ _ _ h]
    | some postings => simp [hdoc, objGet_objSet_ne _ _ _ _ h]

theorem documentFrequency_invertedIndexInsert_ne {α : Type} (inv : InvIndex α)
    (token documentId : String) (posting : α) (t : String) (h : token ≠ t) :
    documentFrequency (invertedIndexInsert inv token documentId posting) t =
      documentFrequency inv t := by
  unfold documentFrequency
  rw [objGet_invertedIndexInsert_ne _ _ _ _ _ h]

/-- The identity hash, standing in for md5 in concrete runs. -/
def idHash : String → String := fun s => s

/-- C6: adding two documents with identical serialized content produces the
same identifier and leaves a single stored document (the second put
overwrites the same key with the same value), while, absent a hash collision
between the two serializations, documents with different serialized content
get different identifiers. -/
theorem add_content_addressed (hash : String → String) (st : JsState)
    (d1 d2 : List (String × JVal))
    (hcol : hash (jsonStringify d1) = hash (jsonStringify d2) →
      jsonStringify d1 = jsonStringify d2) :
    (jsonStringify d1 = jsonStringify d2 →
      generateDocumentId hash d1 = generateDocumentId hash d2 ∧
      (jsAddState hash (jsAddState hash st d1) d2).docs = (jsAddState hash st d1).docs) ∧
    (jsonStringify d1 ≠ jsonStringify d2 →
      generateDocumentId hash d1 ≠ generateDocumentId hash d2) := by
  constructor
  · intro heq
    refine ⟨by simp [generateDocumentId, heq], ?_⟩
    simp only [jsAddState_docs]
    simp [generateDocumentId, heq, objSet_objSet_self]
  · intro hne hid
    exact hne (hcol hid)

/-- Witness for C6 at concrete inputs: the identity hash is collision-free;
re-adding the same document keeps the same identifier and the same stored
documents, and two different documents get different identifiers. -/
theorem add_content_addressed_witness :
    (generateDocumentId idHash [("a", JVal.str "x")] =
        generateDocumentId idHash [("a", JVal.str "x")] ∧
      (jsAddState idHash (jsAddState idHash jsEmpty [("a", JVal.str "x")])
          [("a", JVal.str "x")]).docs =
        (jsAddState idHash jsEmpty [("a", JVal.str "x")]).docs) ∧
    generateDocumentId idHash [("a", JVal.str "x")] ≠
      generateDocumentId idHash [("a", JVal.str "y")] :=
  ⟨(add_content_addressed idHash jsEmpty [("a", JVal.str "x")] [("a", JVal.str "x")]
      (fun h => h)).1 rfl,
   (add_content_addressed idHash jsEmpty [("a", JVal.str "x")] [("a", JVal.str "y")]
      (fun h => h)).2 (by decide)⟩

/-- C8 (amended): `add`, `update` and `delete` wrap their bodies in try/catch
blocks that log and swallow every error, so the caller always observes a
successful resolution whatever the store does; no storage error is surfaced. -/
theorem mutations_never_surface_errors (hash : String → String) (kv : KVE)
    (doc fields0 : List (String × JVal)) (id : String) :
    (jsAddC hash kv doc).1 = .ok () ∧ (jsUpdateC kv id fields0).1 = .ok () ∧
    (jsDeleteC kv id).1 = .ok () := by
  refine ⟨?_, ?_, ?_⟩
  · cases h : jsAddBody hash kv doc <;> simp [jsAddC, tryCatchLog, h]
  · cases h : jsUpdateBody kv id fields0 <;> simp [jsUpdateC, tryCatchLog, h]
  · cases h : kveDelDoc kv id <;> simp [jsDeleteC, tryCatchLog, h]

/-- A store whose writes fail with a storage error. -/
def kvFailing : KVE :=
  { st := jsEmpty, failPut := true, failDel := false, failGet := false }

/-- C8 counterexample: with a failing store, the underlying put inside `add`
raises a storage error, yet the caller of `add` observes a successful
resolution — the error is logged and swallowed, not surfaced. -/
theorem add_swallows_storage_error :
    kvFailing.failPut = true ∧
    jsAddBody idHash kvFailing [("a", JVal.num 1)] = .error .storage ∧
    (jsAddC idHash kvFailing [("a", JVal.num 1)]).1 = .ok () := by
  refine ⟨rfl, rfl, rfl⟩

/-- Concrete stored document for the update scenario. -/
def exDoc : List (String × JVal) := [("a", JVal.num 1)]

/-- Concrete partial update. -/
def exPart : List (String × JVal) := [("b", JVal.num 2)]

/-- Store holding only `exDoc`, added under the identity hash. -/
def exState : JsState := jsAddState idHash jsEmpty exDoc

/-- The identifier of `exDoc` under the identity hash. -/
def exId : String := generateDocumentId idHash exDoc

/-- C7 at the failing input: `update` fetches the raw serialized string and
Object.assign spreads it character-by-character, so the merged object that
is written back has no field `a` at all, while the specified field-by-field
merge keeps `a` bound to 1; the stored result differs from the serialized
specified merge. -/
theorem update_loses_unmentioned_fields :
    objGet (jsUpdateMergedFields (objGet exState.docs exId) exPart) "a" = none ∧
    objGet (specUpdateMergedFields exDoc exPart) "a" = some (JVal.num 1) ∧
    objGet (jsUpdateState exState exId exPart).docs exId ≠
      some (jsonStringify (specUpdateMergedFields exDoc exPart)) := by
  refine ⟨by decide, by decide, by decide⟩

/-- C10 counterexample: a single `add` from the empty store stores one
document, yet the persisted `DocumentCount` holds no number — the increment
path puts the undefined `num` parameter of `_setNumDocuments` — so the
number of stored documents is not bounded by the persisted count (which the
code itself reads back as 0 via `|| 0`), and `add` does not increment the
count by 1.  A single `update` on a missing identifier likewise creates a
document without ever touching the count. -/
theorem add_stores_document_without_numeric_count :
    (jsRun idHash jsEmpty [JsOp.add exDoc]).count = none ∧
    jsDocCount (jsRun idHash jsEmpty [JsOp.add exDoc]) = 1 ∧
    ¬ jsDocCount (jsRun idHash jsEmpty [JsOp.add exDoc]) ≤
        ((jsRun idHash jsEmpty [JsOp.add exDoc]).count).getD 0 ∧
    jsDocCount (jsRun idHash jsEmpty [JsOp.update "x" exPart]) = 1 ∧
    (jsRun idHash jsEmpty [JsOp.update "x" exPart]).count = none := by
  refine ⟨by decide, by decide, by decide, by decide, by decide⟩

theorem jsDocCount_add_le (hash : String → String) (st : JsState)
    (doc : List (String × JVal)) :
    jsDocCount (jsAddState hash st doc) ≤ jsDocCount st + 1 := by
  unfold jsDocCount
  rw [jsAddState_docs, map_fst_objSet]
  by_cases h : (objGet st.docs (generateDocumentId hash doc)).isSome
  · simp [h]
  · simp only [h, if_false, Bool.false_eq_true]
    rw [List.toFinset_append]
    calc ((st.docs.map Prod.fst).toFinset ∪ [generateDocumentId hash doc].toFinset).card
        ≤ (st.docs.map Prod.fst).toFinset.card + [generateDocumentId hash doc].toFinset.card :=
          Finset.card_union_le _ _
      _ ≤ (st.docs.map Prod.fst).toFinset.card + 1 := by simp
  
theorem jsDocCount_update_present (st : JsState) (id : String)
    (fields0 : List (String × JVal)) (h : (objGet st.docs id).isSome) :
    jsDocCount (jsUpdateState st id fields0) = jsDocCount st := by
  unfold jsDocCount jsUpdateState
  rw [map_fst_objSet]
  simp [h]

theorem jsDocCount_delete_le (st : JsState) (id : String) :
    jsDocCount (jsDeleteState st id) ≤ jsDocCount st := by
  unfold jsDocCount jsDeleteState
  apply Finset.card_le_card
  intro x hx
  simp only [List.mem_toFinset] at hx ⊢
  exact map_fst_objDel_subset st.docs id hx

/-- C10 (amended): starting from a store whose `DocumentCount` holds no
number (in particular the empty store), it never holds one after any
sequence of add, update, and delete operations: add's increment path puts
the undefined `num` parameter of `_setNumDocuments` (the arity slip at its
single-argument call site), and update and delete never touch the count key.
Add still stores at most one new document per operation
(`jsDocCount_add_le`) and delete removes without decrementing, but the
persisted count never reflects the number of stored documents. -/
theorem persistedCount_never_numeric (hash : String → String) (st : JsState)
    (ops : List JsOp) (hc : st.count = none) :
    (jsRun hash st ops).count = none := by
  induction ops generalizing st with
  | nil => simpa [jsRun] using hc
  | cons op rest ih =>
    rw [jsRun, List.foldl_cons]
    refine ih (jsStep hash st op) ?_
    cases op with
    | add doc => rfl
    | update id fields0 => exact hc
    | del id => exact hc

/-- Concrete operation sequence for the C10 witness: add a document, update
it under its own identifier, then delete it. -/
def exOps : List JsOp := [JsOp.add exDoc, JsOp.update exId exPart, JsOp.del exId]

/-- Witness for the amended C10 at a concrete run. -/
theorem persistedCount_never_numeric_witness :
    jsEmpty.count = none ∧ (jsRun idHash jsEmpty exOps).count = none :=
  ⟨rfl, persistedCount_never_numeric idHash jsEmpty exOps rfl⟩

/-- Concrete in-memory state for the query-side counterexamples: document d1
holds one posting for token a, token b is unseen, and the document store
holds two documents, so the query-time idf of a is `1 + ln(2/2) = 1` and
that of b is `1 + ln 2`. -/
def bakStEx : BakState :=
  { invertedIndex := [("a", [("d1", [[1, 1, 1, 0]])])],
    documentStore := [("d1", [("t", "a")]), ("d2", [("t", "c")])],
    fields := [("t", 0)], fieldsCount := 1, fieldBoosts := [(0, 1)] }

/-- C3 counterexample: on the query `[a, a, b]` against a document containing
only `a`, the implementation counts token occurrences — 2 matches out of 3
tokens — while the claimed distinct-token ratio is 1 out of 2. -/
theorem queryCoordination_counts_duplicate_tokens :
    queryCoordination bakStEx ["a", "a", "b"] "d1" = 2 / 3 ∧
    specQueryCoordination bakStEx ["a", "a", "b"] "d1" = 1 / 2 ∧
    queryCoordination bakStEx ["a", "a", "b"] "d1" ≠
      specQueryCoordination bakStEx ["a", "a", "b"] "d1" := by
  have h1 : queryCoordination bakStEx ["a", "a", "b"] "d1" = 2 / 3 := by
    simp [queryCoordination, bakStEx, objGet]
  have hd : (["a", "a", "b"] : List String).dedup = ["a", "b"] := by decide
  have h2 : specQueryCoordination bakStEx ["a", "a", "b"] "d1" = 1 / 2 := by
    simp [specQueryCoordination, hd, bakStEx, objGet]
  refine ⟨h1, h2, ?_⟩
  rw [h1, h2]
  norm_num

/-- C3 (amended): the coordination factor is occurrence-based — matching
query token occurrences over total query tokens — and coincides with the
claimed distinct-token ratio whenever the query has no duplicate tokens. -/
theorem queryCoordination_eq_spec_of_nodup (st : BakState) (toks : List String)
    (documentId : String) (h : toks.Nodup) :
    queryCoordination st toks documentId = specQueryCoordination st toks documentId := by
  unfold queryCoordination specQueryCoordination
  rw [List.Nodup.dedup h]

/-- Witness for the amended C3 at a concrete duplicate-free query. -/
theorem queryCoordination_eq_spec_witness :
    (["a", "b"] : List String).Nodup ∧
    queryCoordination bakStEx ["a", "b"] "d1" =
      specQueryCoordination bakStEx ["a", "b"] "d1" :=
  ⟨by decide, queryCoordination_eq_spec_of_nodup bakStEx ["a", "b"] "d1" (by decide)⟩

/-- C2 at the failing input: on the query `[a, b]` against `bakStEx`, the
implementation's normalization factor is `1 / sqrt(idf_a + sqrt(idf_b))` —
the reducer has no initial value and applies a square root, not a square —
which differs from the claimed `1 / sqrt(idf_a^2 + idf_b^2)`. -/
theorem queryNormalization_not_sum_of_squares :
    queryNormalization (["a", "b"].map (inverseDocumentFrequency bakStEx)) ≠
      specQueryNormalization bakStEx ["a", "b"] := by
  have ha : inverseDocumentFrequency bakStEx "a" = 1 := by
    unfold inverseDocumentFrequency
    have h1 : (bakStEx.documentStore.length : ℝ) = 2 := by simp [bakStEx]
    have h2 : ((documentFrequency bakStEx.invertedIndex "a" : ℕ) : ℝ) = 1 := by
      simp [documentFrequency, bakStEx, objGet]
    rw [h1, h2]
    norm_num [Real.log_one]
  have hb : inverseDocumentFrequency bakStEx "b" = 1 + Real.log 2 := by
    simp [inverseDocumentFrequency, documentFrequency, bakStEx, objGet]
  have hdd : (["a", "b"] : List String).dedup = ["a", "b"] := by decide
  have hL : queryNormalization (["a", "b"].map (inverseDocumentFrequency bakStEx)) =
      1 / Real.sqrt (1 + Real.sqrt (1 + Real.log 2)) := by
    simp [queryNormalization, ha, hb]
  have hR : specQueryNormalization bakStEx ["a", "b"] =
      1 / Real.sqrt (1 + (1 + Real.log 2) ^ 2) := by
    simp [specQueryNormalization, hdd, ha, hb]
  rw [hL, hR]
  set x := Real.log 2 with hxdef
  have hx : 0 < x := Real.log_pos one_lt_two
  have h1x : (1 : ℝ) < 1 + x := by linarith
  have hsq1 : (1 + x) < (1 + x) ^ 2 := by nlinarith
  have hsq2 : (1 + x) ^ 2 < ((1 + x) ^ 2) ^ 2 := by nlinarith
  have hs : Real.sqrt (1 + x) < (1 + x) ^ 2 :=
    (Real.sqrt_lt' (by positivity)).mpr (lt_trans hsq1 hsq2)
  have hlt : 1 + Real.sqrt (1 + x) < 1 + (1 + x) ^ 2 := by linarith
  have hpos : (0 : ℝ) < 1 + Real.sqrt (1 + x) := by positivity
  have hmono : Real.sqrt (1 + Real.sqrt (1 + x)) < Real.sqrt (1 + (1 + x) ^ 2) :=
    Real.sqrt_lt_sqrt (le_of_lt hpos) hlt
  have hq : 0 < Real.sqrt (1 + Real.sqrt (1 + x)) := Real.sqrt_pos.mpr hpos
  exact ne_of_gt (one_div_lt_one_div_of_lt hq hmono)

theorem scoreStep_absent (st : BakState) (scores : List (String × ℝ)) (token : String)
    (h : objGet st.invertedIndex token = none) : scoreStep st scores token = scores := by
  unfold scoreStep
  rw [h]

theorem scoreDocuments_all_absent (st : BakState) (toks : List String)
    (h : ∀ t ∈ toks, objGet st.invertedIndex t = none) :
    scoreDocuments st toks = [] := by
  unfold scoreDocuments
  suffices hgen : ∀ acc : List (String × ℝ), toks.foldl (scoreStep st) acc = acc from
    hgen []
  induction toks with
  | nil => intro acc; rfl
  | cons t rest ih =>
    intro acc
    rw [List.foldl_cons, scoreStep_absent st acc t (h t (List.mem_cons_self t rest))]
    exact ih (fun t' ht' => h t' (List.mem_cons_of_mem t ht')) acc


/-- The result of `search` is exactly the stable ranking of the final score
map, each ranked key resolved through the document store; this ties the
ranking sort `rankPairs` to the public operation. -/
theorem search_eq_map_rankPairs (tok : String → List String) (st : BakState)
    (query : String) :
    search tok st query =
      (rankPairs ((scoreDocuments st (tok query)).map (fun e =>
        (e.1, e.2 * (queryNormalization ((tok query).map (inverseDocumentFrequency st)) *
          queryCoordination st (tok query) e.1))))).map
        (fun e => objGet st.documentStore e.1) := rfl

/-- C5: a query all of whose tokens are absent from the inverted index — in
particular the empty query — produces an empty score map, and `search`
returns the empty sequence; every step of the pipeline is total, so no error
is raised. -/
theorem search_empty_on_absent_tokens (tok : String → List String) (st : BakState)
    (query : String) (habs : ∀ t ∈ tok query, objGet st.invertedIndex t = none) :
    search tok st query = [] := by
  rw [search_eq_map_rankPairs]
  rw [scoreDocuments_all_absent st (tok query) habs]
  simp [rankPairs]

/-- Witness for C5: searching an empty-tokenized query against the fresh
engine returns the empty sequence. -/
theorem search_empty_witness :
    (∀ t ∈ (fun (_ : String) => ([] : List String)) "", objGet bakEmpty.invertedIndex t = none) ∧
    search (fun _ => []) bakEmpty "" = [] :=
  ⟨by simp, search_empty_on_absent_tokens (fun _ => []) bakEmpty "" (by simp)⟩

/-- C4: the ranking sort of `search` sorts the score map by score descending
(every pair in the output is in non-increasing score order), it is a
permutation of the score map, and any two entries with equal scores that
appear in a given order in the score map appear in the same order in the
output (stability; no secondary tie-break key). -/
theorem rankPairs_sorted_stable {α : Type} [LinearOrder α] (scores : List (String × α)) :
    (rankPairs scores).Pairwise (fun a b => b.2 ≤ a.2) ∧
    (rankPairs scores).Perm scores ∧
    ∀ x y : String × α, x.2 = y.2 → List.Sublist [x, y] scores →
      List.Sublist [x, y] (rankPairs scores) := by
  have trans : ∀ a b c : String × α, (fun a b => decide (b.2 ≤ a.2)) a b →
      (fun a b => decide (b.2 ≤ a.2)) b c → (fun a b => decide (b.2 ≤ a.2)) a c := by
    intro a b c hab hbc
    simp only [decide_eq_true_eq] at hab hbc ⊢
    exact le_trans hbc hab
  have total : ∀ a b : String × α, ((fun a b => decide (b.2 ≤ a.2)) a b ||
      (fun a b => decide (b.2 ≤ a.2)) b a) = true := by
    intro a b
    simp only [Bool.or_eq_true, decide_eq_true_eq]
    exact le_total b.2 a.2
  refine ⟨?_, List.mergeSort_perm scores _, ?_⟩
  · exact (List.sorted_mergeSort trans total scores).imp (by
      intro a b h
      simpa using h)
  · intro x y hxy hsub
    exact List.pair_sublist_mergeSort trans total (by simp [hxy]) hsub

/-- Witness for C4: a concrete score map with a tie — b scores 2, c scores 2,
b enumerated first — keeps b before c in the ranked output. -/
theorem rankPairs_witness :
    List.Sublist [(("b" : String), (2 : ℕ)), ("c", 2)]
      (rankPairs [("a", (3 : ℕ)), ("b", 2), ("c", 2)]) :=
  (rankPairs_sorted_stable [("a", (3 : ℕ)), ("b", 2), ("c", 2)]).2.2 ("b", 2) ("c", 2) rfl
    ((List.Sublist.refl [("b", 2), ("c", 2)]).cons ("a", 3))

theorem length_filter_eq_count (l : List String) (t : String) :
    (l.filter (fun x => x = t)).length = l.count t := by
  rw [List.count_eq_countP, List.countP_eq_length_filter]
  congr 1

/-- C9 (amended): each non-stopword token occurrence processed by the
in-memory implementation's indexing pass appends exactly one posting at
(token, documentId): a four-component array `[tf, idf, fln, fieldId]` whose
term frequency is the square root of the exact-token count in the field's
token sequence and whose field-length normalization is one over the square
root of the field's length.  The persistent implementation writes
three-component postings instead (see the counterexample). -/
theorem indexToken_appends_four_component_posting (isStop : String → Bool)
    (documentId : String) (field : String × List String) (st : BakState)
    (token : String) (h : isStop token = false) :
    ∃ p : BakPosting,
      recordAt (indexToken isStop documentId field st token).invertedIndex token
          documentId =
        some ((recordAt st.invertedIndex token documentId).getD [] ++ [p]) ∧
      p.length = 4 ∧
      p.getD 0 0 = Real.sqrt (field.2.count token) ∧
      p.getD 1 0 = inverseDocumentFrequency st token ∧
      p.getD 2 0 = 1 / Real.sqrt field.2.length ∧
      p.getD 3 0 = ((objGet st.fields field.1).getD 0 : ℕ) := by
  refine ⟨[termFrequency token field.2, inverseDocumentFrequency st token,
    fieldLengthNormalization field.2, (((objGet st.fields field.1).getD 0 : ℕ) : ℝ)],
    ?_, rfl, ?_, rfl, rfl, rfl⟩
  · simp only [indexToken, h, Bool.false_eq_true, if_false]
    exact recordAt_invertedIndexInsert_self _ _ _ _
  · show termFrequency token field.2 = Real.sqrt (field.2.count token)
    unfold termFrequency
    rw [length_filter_eq_count]

/-- Witness for the amended C9 at a concrete indexing step. -/
theorem indexToken_posting_witness :
    (fun (_ : String) => false) "x" = false ∧
    ∃ p : BakPosting,
      recordAt (indexToken (fun _ => false) "d" ("t", ["x"]) bakEmpty "x").invertedIndex
          "x" "d" =
        some ((recordAt bakEmpty.invertedIndex "x" "d").getD [] ++ [p]) ∧
      p.length = 4 ∧
      p.getD 0 0 = Real.sqrt ((["x"] : List String).count "x") ∧
      p.getD 1 0 = inverseDocumentFrequency bakEmpty "x" ∧
      p.getD 2 0 = 1 / Real.sqrt (["x"] : List String).length ∧
      p.getD 3 0 = ((objGet bakEmpty.fields "t").getD 0 : ℕ) :=
  ⟨rfl, indexToken_appends_four_component_posting (fun _ => false) "d" ("t", ["x"])
    bakEmpty "x" rfl⟩

/-- Inverted index written by the persistent implementation when indexing one
single-token field into an empty index with document count 1. -/
noncomputable def jsInvC9 : InvIndex (List JsNum) :=
  jsIndexDocument (fun _ => false) 1 [] "d" [("t", ["x"])]

/-- C9 counterexample: the posting written by the persistent implementation's
`_indexDocument` has exactly three components `[tf, idf, fln]` — no field id
— so not every posting written during indexing is a four-component tuple. -/
theorem jsIndexDocument_writes_three_component_posting :
    ((recordAt jsInvC9 "x" "d").getD []).map List.length = [3] ∧
    ¬ ∀ p ∈ (recordAt jsInvC9 "x" "d").getD [], p.length = 4 := by
  have hrec : (recordAt jsInvC9 "x" "d").getD [] =
      [[some (termFrequency "x" ["x"]),
        jsInverseDocumentFrequency 1 ([] : InvIndex (List JsNum)) "x",
        some (fieldLengthNormalization ["x"])]] := rfl
  constructor
  · rw [hrec]; rfl
  · intro hall
    have h3 := hall [some (termFrequency "x" ["x"]),
        jsInverseDocumentFrequency 1 ([] : InvIndex (List JsNum)) "x",
        some (fieldLengthNormalization ["x"])]
      (by rw [hrec]; exact List.mem_singleton_self _)
    simp at h3

theorem tokenizeFields_snd (tok : String → List String) (st : BakState)
    (document : List (String × String)) :
    (tokenizeFields tok st document).2 = document.map (fun fv => (fv.1, tok fv.2)) := by
  unfold tokenizeFields
  suffices hgen : ∀ (st0 : BakState) (acc : List (String × List String)),
      (document.foldl
        (fun acc fv => (registerField acc.1 fv.1, acc.2 ++ [(fv.1, tok fv.2)]))
        (st0, acc)).2 = acc ++ document.map (fun fv => (fv.1, tok fv.2)) by
    simpa using hgen st []
  induction document with
  | nil => intro st0 acc; simp
  | cons fv rest ih =>
    intro st0 acc
    rw [List.foldl_cons]
    rw [ih (registerField st0 fv.1) (acc ++ [(fv.1, tok fv.2)])]
    simp

theorem tokenizeFields_invertedIndex (tok : String → List String) (st : BakState)
    (document : List (String × String)) :
    (tokenizeFields tok st document).1.invertedIndex = st.invertedIndex := by
  unfold tokenizeFields
  suffices hgen : ∀ (st0 : BakState) (acc : List (String × List String)),
      (document.foldl
        (fun acc fv => (registerField acc.1 fv.1, acc.2 ++ [(fv.1, tok fv.2)]))
        (st0, acc)).1.invertedIndex = st0.invertedIndex by
    simpa using hgen st []
  induction document with
  | nil => intro st0 acc; rfl
  | cons fv rest ih =>
    intro st0 acc
    rw [List.foldl_cons, ih]
    unfold registerField
    by_cases h : (objGet st0.fields fv.1).isSome <;> simp [h]

theorem tokenizeFields_documentStore (tok : String → List String) (st : BakState)
    (document : List (String × String)) :
    (tokenizeFields tok st document).1.documentStore = st.documentStore := by
  unfold tokenizeFields
  suffices hgen : ∀ (st0 : BakState) (acc : List (String × List String)),
      (document.foldl
        (fun acc fv => (registerField acc.1 fv.1, acc.2 ++ [(fv.1, tok fv.2)]))
        (st0, acc)).1.documentStore = st0.documentStore by
    simpa using hgen st []
  induction document with
  | nil => intro st0 acc; rfl
  | cons fv rest ih =>
    intro st0 acc
    rw [List.foldl_cons, ih]
    unfold registerField
    by_cases h : (objGet st0.fields fv.1).isSome <;> simp [h]

theorem indexToken_documentStore (isStop : String → Bool) (documentId : String)
    (field : String × List String) (st : BakState) (token : String) :
    (indexToken isStop documentId field st token).documentStore = st.documentStore := by
  unfold indexToken
  by_cases h : isStop token = true <;> simp [h]

theorem foldl_indexToken_documentStore (isStop : String → Bool) (documentId : String)
    (field : String × List String) (toks : List String) (st : BakState) :
    (toks.foldl (indexToken isStop documentId field) st).documentStore =
      st.documentStore := by
  induction toks generalizing st with
  | nil => rfl
  | cons tk rest ih =>
    rw [List.foldl_cons, ih, indexToken_documentStore]

theorem indexDocument_documentStore (isStop : String → Bool) (st : BakState)
    (documentId : String) (tokenizedDocument : List (String × List String)) :
    (indexDocument isStop st documentId tokenizedDocument).documentStore =
      st.documentStore := by
  unfold indexDocument
  induction tokenizedDocument generalizing st with
  | nil => rfl
  | cons field rest ih =>
    rw [List.foldl_cons, ih, foldl_indexToken_documentStore]

theorem indexToken_objGet_ne (isStop : String → Bool) (documentId : String)
    (field : String × List String) (st : BakState) (token t : String)
    (h : isStop token = false → token ≠ t) :
    objGet (indexToken isStop documentId field st token).invertedIndex t =
      objGet st.invertedIndex t := by
  unfold indexToken
  by_cases hs : isStop token = true
  · simp [hs]
  · have hne : token ≠ t := h (by simpa using hs)
    simp only [hs, if_false, Bool.false_eq_true]
    exact objGet_invertedIndexInsert_ne _ _ _ _ _ hne

theorem foldl_indexToken_objGet_ne (isStop : String → Bool) (documentId : String)
    (field : String × List String) (toks : List String) (st : BakState) (t : String)
    (h : ∀ tk ∈ toks, isStop tk = false → tk ≠ t) :
    objGet ((toks.foldl (indexToken isStop documentId field) st)).invertedIndex t =
      objGet st.invertedIndex t := by
  induction toks generalizing st with
  | nil => rfl
  | cons tk rest ih =>
    rw [List.foldl_cons]
    rw [ih _ (fun tk' htk' => h tk' (List.mem_cons_of_mem tk htk'))]
    exact indexToken_objGet_ne isStop documentId field st tk t
      (h tk (List.mem_cons_self tk rest))

theorem indexDocument_objGet_ne (isStop : String → Bool) (st : BakState)
    (documentId : String) (tokenizedDocument : List (String × List String)) (t : String)
    (h : ∀ g ∈ tokenizedDocument, ∀ tk ∈ g.2, isStop tk = false → tk ≠ t) :
    objGet (indexDocument isStop st documentId tokenizedDocument).invertedIndex t =
      objGet st.invertedIndex t := by
  unfold indexDocument
  induction tokenizedDocument generalizing st with
  | nil => rfl
  | cons field rest ih =>
    rw [List.foldl_cons]
    rw [ih _ (fun g hg => h g (List.mem_cons_of_mem field hg))]
    exact foldl_indexToken_objGet_ne isStop documentId field field.2 st t
      (h field (List.mem_cons_self field rest) )

theorem recordAt_eq_of_objGet_eq {α : Type} (inv inv' : InvIndex α) (t d : String)
    (h : objGet inv t = objGet inv' t) : recordAt inv t d = recordAt inv' t d := by
  unfold recordAt
  rw [h]

theorem indexToken_record_extends (isStop : String → Bool) (documentId : String)
    (field : String × List String) (st : BakState) (tk t : String) :
    ∃ rest : List BakPosting,
      (recordAt (indexToken isStop documentId field st tk).invertedIndex t
          documentId).getD [] =
        (recordAt st.invertedIndex t documentId).getD [] ++ rest := by
  by_cases hs : isStop tk = true
  · exact ⟨[], by simp [indexToken, hs]⟩
  · by_cases he : tk = t
    · subst he
      refine ⟨[[termFrequency tk field.2, inverseDocumentFrequency st tk,
        fieldLengthNormalization field.2,
        (((objGet st.fields field.1).getD 0 : Nat) : ℝ)]], ?_⟩
      simp only [indexToken, hs, if_false, Bool.false_eq_true]
      rw [recordAt_invertedIndexInsert_self]
      simp
    · refine ⟨[], ?_⟩
      rw [recordAt_eq_of_objGet_eq _ st.invertedIndex t documentId
        (indexToken_objGet_ne isStop documentId field st tk t (fun _ => he))]
      simp

theorem foldl_indexToken_record_extends (isStop : String → Bool) (documentId : String)
    (field : String × List String) (toks : List String) (st : BakState) (t : String) :
    ∃ rest : List BakPosting,
      (recordAt ((toks.foldl (indexToken isStop documentId field) st)).invertedIndex t
          documentId).getD [] =
        (recordAt st.invertedIndex t documentId).getD [] ++ rest := by
  induction toks generalizing st with
  | nil => exact ⟨[], by simp⟩
  | cons tk rest ih =>
    rw [List.foldl_cons]
    obtain ⟨r1, hr1⟩ := indexToken_record_extends isStop documentId field st tk t
    obtain ⟨r2, hr2⟩ := ih (indexToken isStop documentId field st tk)
    exact ⟨r1 ++ r2, by rw [hr2, hr1, List.append_assoc]⟩

theorem indexDocument_record_extends (isStop : String → Bool) (st : BakState)
    (documentId : String) (tokenizedDocument : List (String × List String)) (t : String) :
    ∃ rest : List BakPosting,
      (recordAt (indexDocument isStop st documentId tokenizedDocument).invertedIndex t
          documentId).getD [] =
        (recordAt st.invertedIndex t documentId).getD [] ++ rest := by
  unfold indexDocument
  induction tokenizedDocument generalizing st with
  | nil => exact ⟨[], by simp⟩
  | cons field rest ih =>
    rw [List.foldl_cons]
    obtain ⟨r1, hr1⟩ := foldl_indexToken_record_extends isStop documentId field field.2 st t
    obtain ⟨r2, hr2⟩ := ih (field.2.foldl (indexToken isStop documentId field) st)
    exact ⟨r1 ++ r2, by rw [hr2, hr1, List.append_assoc]⟩

theorem indexToken_fields (isStop : String → Bool) (documentId : String)
    (field : String × List String) (st : BakState) (token : String) :
    (indexToken isStop documentId field st token).fields = st.fields := by
  unfold indexToken
  by_cases h : isStop token = true <;> simp [h]

theorem foldl_indexToken_fields (isStop : String → Bool) (documentId : String)
    (field : String × List String) (toks : List String) (st : BakState) :
    (toks.foldl (indexToken isStop documentId field) st).fields = st.fields := by
  induction toks generalizing st with
  | nil => rfl
  | cons tk rest ih =>
    rw [List.foldl_cons, ih, indexToken_fields]

theorem indexDocument_fields (isStop : String → Bool) (st : BakState)
    (documentId : String) (tokenizedDocument : List (String × List String)) :
    (indexDocument isStop st documentId tokenizedDocument).fields = st.fields := by
  unfold indexDocument
  induction tokenizedDocument generalizing st with
  | nil => rfl
  | cons field rest ih =>
    rw [List.foldl_cons, ih, foldl_indexToken_fields]

theorem indexDocument_append (isStop : String → Bool) (st : BakState)
    (documentId : String) (A B : List (String × List String)) :
    indexDocument isStop st documentId (A ++ B) =
      indexDocument isStop (indexDocument isStop st documentId A) documentId B := by
  unfold indexDocument
  rw [List.foldl_append]

theorem indexDocument_cons (isStop : String → Bool) (st : BakState)
    (documentId : String) (g : String × List String) (B : List (String × List String)) :
    indexDocument isStop st documentId (g :: B) =
      indexDocument isStop (g.2.foldl (indexToken isStop documentId g) st) documentId B := by
  unfold indexDocument
  rw [List.foldl_cons]

theorem foldl_indexToken_first_posting (isStop : String → Bool) (documentId : String)
    (field : String × List String) (l1 l2 : List String) (st : BakState) (t : String)
    (hl1 : ∀ tk ∈ l1, isStop tk = false → tk ≠ t) (hns : isStop t = false) :
    ∃ rest : List BakPosting,
      (recordAt (((l1 ++ t :: l2).foldl (indexToken isStop documentId field)
          st)).invertedIndex t documentId).getD [] =
        (recordAt st.invertedIndex t documentId).getD [] ++
          ([termFrequency t field.2, inverseDocumentFrequency st t,
            fieldLengthNormalization field.2,
            (((objGet st.fields field.1).getD 0 : Nat) : ℝ)] :: rest) := by
  rw [List.foldl_append, List.foldl_cons]
  set st1 := l1.foldl (indexToken isStop documentId field) st with hst1
  have hds : st1.documentStore = st.documentStore :=
    foldl_indexToken_documentStore isStop documentId field l1 st
  have hflds : st1.fields = st.fields :=
    foldl_indexToken_fields isStop documentId field l1 st
  have hget : objGet st1.invertedIndex t = objGet st.invertedIndex t :=
    foldl_indexToken_objGet_ne isStop documentId field l1 st t hl1
  have hrecEq : recordAt st1.invertedIndex t documentId =
      recordAt st.invertedIndex t documentId :=
    recordAt_eq_of_objGet_eq _ _ _ _ hget
  have hidf : inverseDocumentFrequency st1 t = inverseDocumentFrequency st t := by
    unfold inverseDocumentFrequency documentFrequency
    rw [hds, hget]
  have hstep : recordAt (indexToken isStop documentId field st1 t).invertedIndex t
      documentId =
      some ((recordAt st.invertedIndex t documentId).getD [] ++
        [[termFrequency t field.2, inverseDocumentFrequency st t,
          fieldLengthNormalization field.2,
          (((objGet st.fields field.1).getD 0 : Nat) : ℝ)]]) := by
    simp only [indexToken, hns, if_false, Bool.false_eq_true]
    rw [recordAt_invertedIndexInsert_self, hrecEq, hidf, hflds]
  obtain ⟨r, hr⟩ := foldl_indexToken_record_extends isStop documentId field l2
    (indexToken isStop documentId field st1 t) t
  refine ⟨r, ?_⟩
  rw [hr, hstep]
  simp

theorem indexDocument_first_posting (isStop : String → Bool) (st : BakState)
    (documentId : String) (F1 F2 : List (String × List String)) (f : String)
    (l1 l2 : List String) (t : String)
    (hF1 : ∀ g ∈ F1, ∀ tk ∈ g.2, isStop tk = false → tk ≠ t)
    (hl1 : ∀ tk ∈ l1, isStop tk = false → tk ≠ t) (hns : isStop t = false) :
    ∃ rest : List BakPosting,
      (recordAt (indexDocument isStop st documentId
          (F1 ++ (f, l1 ++ t :: l2) :: F2)).invertedIndex t documentId).getD [] =
        (recordAt st.invertedIndex t documentId).getD [] ++
          ([termFrequency t (l1 ++ t :: l2), inverseDocumentFrequency st t,
            fieldLengthNormalization (l1 ++ t :: l2),
            (((objGet st.fields f).getD 0 : Nat) : ℝ)] :: rest) := by
  rw [indexDocument_append, indexDocument_cons]
  set stA := indexDocument isStop st documentId F1 with hstA
  have hds : stA.documentStore = st.documentStore :=
    indexDocument_documentStore isStop st documentId F1
  have hflds : stA.fields = st.fields := indexDocument_fields isStop st documentId F1
  have hget : objGet stA.invertedIndex t = objGet st.invertedIndex t :=
    indexDocument_objGet_ne isStop st documentId F1 t hF1
  have hidf : inverseDocumentFrequency stA t = inverseDocumentFrequency st t := by
    unfold inverseDocumentFrequency documentFrequency
    rw [hds, hget]
  have hrecEq : recordAt stA.invertedIndex t documentId =
      recordAt st.invertedIndex t documentId :=
    recordAt_eq_of_objGet_eq _ _ _ _ hget
  obtain ⟨r1, hr1⟩ := foldl_indexToken_first_posting isStop documentId
    (f, l1 ++ t :: l2) l1 l2 stA t hl1 hns
  rw [hrecEq, hidf, hflds] at hr1
  obtain ⟨r2, hr2⟩ := indexDocument_record_extends isStop
    ((l1 ++ t :: l2).foldl (indexToken isStop documentId (f, l1 ++ t :: l2)) stA)
    documentId F2 t
  refine ⟨r1 ++ r2, ?_⟩
  rw [hr2, hr1]
  simp

/-- C1 (amended): during `addDocument` of the in-memory implementation, the
idf stored in the posting written for the first surviving occurrence of a
token equals `1 + ln(N / (df + 1))`, where N is the document-store size
including the document being added and df is the token's document frequency
before this document's postings are added.  (Later occurrences of the same
token within the same add see a document frequency that already counts this
document; see the counterexample.)  The occurrence is located by splitting
the tokenized document as `F1 ++ (f, l1 ++ t :: l2) :: F2` with no surviving
occurrence of `t` in `F1` or `l1`. -/
theorem addDocument_first_posting_idf (hash : String → String)
    (tok : String → List String) (isStop : String → Bool) (st : BakState)
    (document : List (String × String)) (t : String)
    (F1 F2 : List (String × List String)) (f : String) (l1 l2 : List String)
    (hsplit : document.map (fun fv => (fv.1, tok fv.2)) =
      F1 ++ (f, l1 ++ t :: l2) :: F2)
    (hF1 : ∀ g ∈ F1, ∀ tk ∈ g.2, isStop tk = false → tk ≠ t)
    (hl1 : ∀ tk ∈ l1, isStop tk = false → tk ≠ t) (hns : isStop t = false) :
    ∃ (p : BakPosting) (rest : List BakPosting),
      (recordAt (addDocument hash tok isStop st document).invertedIndex t
          (hash (jsonStringifyS document))).getD [] =
        (recordAt st.invertedIndex t (hash (jsonStringifyS document))).getD [] ++
          p :: rest ∧
      p.getD 1 0 = 1 + Real.log
        (((objSet st.documentStore (hash (jsonStringifyS document)) document).length : ℝ) /
          ((documentFrequency st.invertedIndex t : ℝ) + 1)) := by
  simp only [addDocument]
  rw [tokenizeFields_snd, hsplit]
  set stP : BakState := { st with documentStore := objSet st.documentStore (hash (jsonStringifyS document)) document } with hstP
  set st2 := (tokenizeFields tok stP document).1 with hst2
  have hinv2 : st2.invertedIndex = st.invertedIndex := by
    rw [hst2, tokenizeFields_invertedIndex]
  have hds2 : st2.documentStore =
      objSet st.documentStore (hash (jsonStringifyS document)) document := by
    rw [hst2, tokenizeFields_documentStore]
  obtain ⟨rest, hrest⟩ := indexDocument_first_posting isStop st2
    (hash (jsonStringifyS document)) F1 F2 f l1 l2 t hF1 hl1 hns
  refine ⟨[termFrequency t (l1 ++ t :: l2), inverseDocumentFrequency st2 t,
    fieldLengthNormalization (l1 ++ t :: l2),
    (((objGet st2.fields f).getD 0 : Nat) : ℝ)], rest, ?_, ?_⟩
  · rw [hrest]
    have : recordAt st2.invertedIndex t (hash (jsonStringifyS document)) =
        recordAt st.invertedIndex t (hash (jsonStringifyS document)) := by
      rw [hinv2]
    rw [this]
  · show inverseDocumentFrequency st2 t = _
    unfold inverseDocumentFrequency documentFrequency
    rw [hds2, hinv2]

/-- Tokenizer producing a single token, for concrete runs. -/
def tokOne : String → List String := fun _ => ["x"]

/-- Tokenizer producing the same token twice, for concrete runs. -/
def tokTwo : String → List String := fun _ => ["x", "x"]

/-- Empty stopword predicate, for concrete runs. -/
def noStop : String → Bool := fun _ => false

/-- Witness for the amended C1 at a concrete add of a single-token document
into the fresh engine. -/
theorem addDocument_first_posting_idf_witness :
    ([("t", "v")].map (fun fv => (fv.1, tokOne fv.2)) =
      [] ++ ("t", [] ++ "x" :: []) :: []) ∧
    ∃ (p : BakPosting) (rest : List BakPosting),
      (recordAt (addDocument idHash tokOne noStop bakEmpty [("t", "v")]).invertedIndex
          "x" (idHash (jsonStringifyS [("t", "v")]))).getD [] =
        (recordAt bakEmpty.invertedIndex "x"
          (idHash (jsonStringifyS [("t", "v")]))).getD [] ++ p :: rest ∧
      p.getD 1 0 = 1 + Real.log
        (((objSet bakEmpty.documentStore (idHash (jsonStringifyS [("t", "v")]))
            [("t", "v")]).length : ℝ) /
          ((documentFrequency bakEmpty.invertedIndex "x" : ℝ) + 1)) :=
  ⟨rfl, addDocument_first_posting_idf idHash tokOne noStop bakEmpty [("t", "v")] "x"
    [] [] "t" [] [] rfl (by simp) (by simp) rfl⟩

/-- The document of the C1 counterexample. -/
def c1Doc : List (String × String) := [("t", "v")]

/-- Its identifier under the identity hash. -/
def c1Id : String := idHash (jsonStringifyS c1Doc)

/-- State after the document-store put and field registration of the
counterexample add. -/
noncomputable def c1St2 : BakState :=
  (tokenizeFields tokTwo
    { bakEmpty with documentStore := objSet bakEmpty.documentStore c1Id c1Doc } c1Doc).1

/-- State after indexing the first occurrence of the repeated token. -/
noncomputable def c1St3 : BakState := indexToken noStop c1Id ("t", ["x", "x"]) c1St2 "x"

/-- State after indexing the second occurrence. -/
noncomputable def c1St4 : BakState := indexToken noStop c1Id ("t", ["x", "x"]) c1St3 "x"

/-- The full counterexample add. -/
noncomputable def c1State : BakState := addDocument idHash tokTwo noStop bakEmpty c1Doc

theorem c1State_eq : c1State = c1St4 := by
  simp only [c1State, addDocument]
  rw [tokenizeFields_snd]
  simp only [c1Doc, List.map_cons, List.map_nil, tokTwo]
  simp only [indexDocument, List.foldl_cons, List.foldl_nil]
  simp only [c1St4, c1St3, c1St2, c1Id, c1Doc, idHash]

theorem c1St2_invertedIndex : c1St2.invertedIndex = [] := by
  rw [c1St2, tokenizeFields_invertedIndex]
  rfl

theorem c1St3_documentStore : c1St3.documentStore = [(c1Id, c1Doc)] := by
  rw [c1St3, indexToken_documentStore, c1St2, tokenizeFields_documentStore]
  rfl

theorem c1St3_df : documentFrequency c1St3.invertedIndex "x" = 1 := by
  have h : c1St3.invertedIndex =
      invertedIndexInsert c1St2.invertedIndex "x" c1Id
        [termFrequency "x" ["x", "x"], inverseDocumentFrequency c1St2 "x",
         fieldLengthNormalization ["x", "x"],
         (((objGet c1St2.fields "t").getD 0 : Nat) : ℝ)] := by
    simp only [c1St3, indexToken, noStop, if_false, Bool.false_eq_true]
  rw [h, c1St2_invertedIndex]
  simp [invertedIndexInsert, documentFrequency, objGet, objSet]

theorem c1St3_idf : inverseDocumentFrequency c1St3 "x" = 1 + Real.log ((1 : ℝ) / (1 + 1)) := by
  unfold inverseDocumentFrequency
  rw [c1St3_documentStore, c1St3_df]
  norm_num

theorem c1St4_record : recordAt c1St4.invertedIndex "x" c1Id =
    some ((recordAt c1St3.invertedIndex "x" c1Id).getD [] ++
      [[termFrequency "x" ["x", "x"], inverseDocumentFrequency c1St3 "x",
        fieldLengthNormalization ["x", "x"],
        (((objGet c1St3.fields "t").getD 0 : Nat) : ℝ)]]) := by
  simp only [c1St4, indexToken, noStop, if_false, Bool.false_eq_true]
  exact recordAt_invertedIndexInsert_self _ _ _ _

/-- C1 counterexample: adding a document whose field tokenizes to `[x, x]`
into the fresh engine writes a posting whose idf is not
`1 + ln(N / (df + 1))` with df the pre-add document frequency: the second
occurrence of the token sees a document frequency that already counts the
document being added, so its stored idf is `1 + ln(1/2)`, not
`1 + ln(1/1)`. -/
theorem addDocument_idf_not_always_pre_add_df :
    ∃ p ∈ (recordAt c1State.invertedIndex "x" c1Id).getD [],
      p.getD 1 0 ≠ 1 + Real.log
        (((objSet bakEmpty.documentStore c1Id c1Doc).length : ℝ) /
          ((documentFrequency bakEmpty.invertedIndex "x" : ℝ) + 1)) := by
  refine ⟨[termFrequency "x" ["x", "x"], inverseDocumentFrequency c1St3 "x",
    fieldLengthNormalization ["x", "x"],
    (((objGet c1St3.fields "t").getD 0 : Nat) : ℝ)], ?_, ?_⟩
  · rw [c1State_eq, c1St4_record]
    simp
  · show inverseDocumentFrequency c1St3 "x" ≠ _
    rw [c1St3_idf]
    have hrhs : 1 + Real.log
        (((objSet bakEmpty.documentStore c1Id c1Doc).length : ℝ) /
          ((documentFrequency bakEmpty.invertedIndex "x" : ℝ) + 1)) = 1 := by
      have h1 : ((objSet bakEmpty.documentStore c1Id c1Doc).length : ℝ) = 1 := by
        simp [bakEmpty, objSet]
      have h2 : ((documentFrequency bakEmpty.invertedIndex "x" : ℕ) : ℝ) = 0 := by
        simp [bakEmpty, documentFrequency, objGet]
      rw [h1, h2]
      norm_num [Real.log_one]
    rw [hrhs]
    have hneg : Real.log ((1 : ℝ) / (1 + 1)) < 0 :=
      Real.log_neg (by norm_num) (by norm_num)
    intro hcontra
    have : Real.log ((1 : ℝ) / (1 + 1)) = 0 := by linarith [hcontra]
    linarith
